import Mathlib

/-!
Shallow embedding of the Amount Calculator of the PaymentPage component
(the component in src/unnamed/part_001): base amount and tip state, input
cleaning and format validation, parsing and two decimal formatting, and the
five event handlers.  Monetary values are modelled as rationals; the source
uses JavaScript floating point numbers, but every numeric value the
component stores is obtained by parsing a decimal string, and every string
it renders is produced by two decimal formatting, where the two semantics
agree on the rounding performed here.
-/

namespace PayMe

/-- Characters kept by the input filters: the source strips every character
that is not a digit and not a dot, via value.replace on both change
handlers. -/
def isMoneyChar (c : Char) : Bool := c.isDigit || c = '.'

/-- Cleaning pass of both change handlers on the character list level. -/
def cleanChars (cs : List Char) : List Char := cs.filter isMoneyChar

/-- Model of value.replace with the cleanup pattern in the change
handlers. -/
def cleanStr (s : String) : String := String.mk (cleanChars s.data)

/-- Model of the anchored pattern test used by both change handlers:
digits, then an optional dot followed by at most two digits. -/
def validFormatChars (cs : List Char) : Bool :=
  match cs.dropWhile Char.isDigit with
  | [] => true
  | c :: t => c = '.' && t.all Char.isDigit && decide (t.length ≤ 2)

/-- String level wrapper of the format test. -/
def validFormat (s : String) : Bool := validFormatChars s.data

/-- Value of a big endian digit string. -/
def digitsVal (cs : List Char) : ℕ :=
  cs.foldl (fun a c => 10 * a + (c.toNat - 48)) 0

/-- Integer part read by the parse function: the leading digits. -/
def intPartOf (cs : List Char) : List Char := cs.takeWhile Char.isDigit

/-- Fractional part read by the parse function: the digits directly after
a dot that directly follows the leading digits. -/
def fracPartOf (cs : List Char) : List Char :=
  match cs.dropWhile Char.isDigit with
  | c :: t => if c = '.' then t.takeWhile Char.isDigit else []
  | [] => []

/-- Model of JavaScript parseFloat restricted to the digit and dot strings
this component feeds it: leading digits, then an optional dot and further
digits, everything beyond ignored; NaN (here: none) when no digit is read
at all. -/
def parseFloatChars (cs : List Char) : Option ℚ :=
  if intPartOf cs = [] ∧ fracPartOf cs = [] then none
  else some ((digitsVal (intPartOf cs) : ℚ)
    + (digitsVal (fracPartOf cs) : ℚ) / 10 ^ (fracPartOf cs).length)

/-- String level wrapper of the parse function. -/
def parseFloat (s : String) : Option ℚ := parseFloatChars s.data

/-- Rounding to two decimal places, half away from zero on the nonnegative
values this component produces; the rounding performed by toFixed. -/
def round2 (q : ℚ) : ℚ := (⌊q * 100 + 1 / 2⌋ : ℚ) / 100

/-- Decimal digit character. -/
def natDigitChar (d : ℕ) : Char := Char.ofNat (48 + d % 10)

/-- Little endian digit characters of a natural number; empty for zero. -/
def natToRevDigits : ℕ → List Char
  | 0 => []
  | n + 1 => natDigitChar ((n + 1) % 10) :: natToRevDigits ((n + 1) / 10)
decreasing_by exact Nat.div_lt_self (Nat.succ_pos n) (by norm_num)

/-- Big endian decimal digit characters of a natural number. -/
def natToChars (n : ℕ) : List Char :=
  if n = 0 then ['0'] else (natToRevDigits n).reverse

/-- Model of toFixed with two places applied to a nonnegative number:
integer part, dot, and exactly two fractional digits of the value rounded
to hundredths. -/
def format2Chars (q : ℚ) : List Char :=
  let n := (⌊q * 100 + 1 / 2⌋).toNat
  natToChars (n / 100) ++ '.' :: natDigitChar (n / 10 % 10) :: [natDigitChar (n % 10)]

/-- String level wrapper of the formatting function. -/
def format2 (q : ℚ) : String := String.mk (format2Chars q)

/-- The five state fields of the PaymentPage component, with the names and
initial values of its useState declarations. -/
structure PaymentState where
  baseAmount : ℚ
  baseAmountInput : String
  selectedTip : ℕ
  customTip : String
  customTipDisplay : String
deriving DecidableEq, Repr

/-- Initial component state: useState(200.00), useState of the string
200.00, useState(0), and two empty strings. -/
def initState : PaymentState :=
  { baseAmount := 200
    baseAmountInput := "200.00"
    selectedTip := 0
    customTip := ""
    customTipDisplay := "" }

/-- The offered preset percentages. -/
def tipPercentages : List ℕ := [10, 15, 20]

/-- calculateTipAmount of the source: baseAmount times percentage over
one hundred. -/
def calculateTipAmount (s : PaymentState) (percentage : ℕ) : ℚ :=
  s.baseAmount * percentage / 100

/-- getTotalAmount of the source.  A nonempty customTip string is truthy
and takes precedence; the source then parses it.  On every reachable state
a nonempty customTip parses (proved below), so getD 0 never stands in for
the NaN of an unparseable string. -/
def getTotalAmount (s : PaymentState) : ℚ :=
  if s.customTip = "" then s.baseAmount + calculateTipAmount s s.selectedTip
  else s.baseAmount + (parseFloat s.customTip).getD 0

/-- Tip line of the rendered breakdown: the parsed custom tip when one is
set, else the preset percentage applied to the base amount. -/
def derivedTip (s : PaymentState) : ℚ :=
  if s.customTip = "" then calculateTipAmount s s.selectedTip
  else (parseFloat s.customTip).getD 0

/-- The subtotal, tip and total triple the page renders. -/
def derivedAmounts (s : PaymentState) : ℚ × ℚ × ℚ :=
  (s.baseAmount, derivedTip s, getTotalAmount s)

/-- handleTipSelect of the source: toggle the pressed percentage and clear
the custom tip and its display text. -/
def handleTipSelect (s : PaymentState) (percentage : ℕ) : PaymentState :=
  { s with
    selectedTip := if s.selectedTip = percentage then 0 else percentage
    customTip := ""
    customTipDisplay := "" }

/-- handleCustomTipChange of the source.  The else branches follow the
source structure: with a parsed value below one and a nonempty cleaned
string, only the display text changes. -/
def handleCustomTipChange (s : PaymentState) (value : String) : PaymentState :=
  let numericValue := cleanStr value
  if numericValue = "" ∨ validFormat numericValue then
    let s1 := { s with
      customTipDisplay := if numericValue = "" then "" else "$" ++ numericValue }
    match parseFloat numericValue with
    | some parsedValue =>
      if 1 ≤ parsedValue then
        { s1 with customTip := numericValue, selectedTip := 0 }
      else if numericValue = "" then
        { s1 with customTip := "", selectedTip := 0 }
      else s1
    | none =>
      if numericValue = "" then
        { s1 with customTip := "", selectedTip := 0 }
      else s1
  else s

/-- handleCustomTipBlur of the source.  In the source an unparseable
nonempty customTip would give parseFloat NaN, the comparison NaN below one
is false, and toFixed of NaN renders the string NaN; reachable states never
hit that branch (proved below). -/
def handleCustomTipBlur (s : PaymentState) : PaymentState :=
  if s.customTip = "" then { s with customTipDisplay := "" }
  else
    match parseFloat s.customTip with
    | some parsedValue =>
      if parsedValue < 1 then
        { s with customTip := "1.00", customTipDisplay := "$1.00" }
      else
        { s with
          customTip := format2 parsedValue
          customTipDisplay := "$" ++ format2 parsedValue }
    | none => { s with customTip := "NaN", customTipDisplay := "$NaN" }

/-- handleBaseAmountChange of the source.  parseFloat of the empty string
is none, so the match reproduces the truthiness test of the source. -/
def handleBaseAmountChange (s : PaymentState) (value : String) : PaymentState :=
  let numericValue := cleanStr value
  if numericValue = "" ∨ validFormat numericValue then
    let s1 := { s with baseAmountInput := numericValue }
    match parseFloat numericValue with
    | some parsedValue => { s1 with baseAmount := parsedValue }
    | none =>
      if numericValue = "" then { s1 with baseAmount := 0 } else s1
  else s

/-- handleBaseAmountBlur of the source.  The source guard, empty string or
isNaN of the parse, is exactly parseFloat returning none. -/
def handleBaseAmountBlur (s : PaymentState) : PaymentState :=
  match parseFloat s.baseAmountInput with
  | none => { s with baseAmountInput := "1.00", baseAmount := 1 }
  | some parsedValue =>
    if parsedValue < 1 then
      { s with baseAmountInput := "1.00", baseAmount := 1 }
    else
      { s with
        baseAmountInput := format2 parsedValue
        baseAmount := (parseFloat (format2 parsedValue)).getD 0 }

/-- isValidPayment of the source. -/
def isValidPayment (s : PaymentState) : Bool := decide (1 ≤ s.baseAmount)

/-- The operations of the spec, each mapped to its source handler:
setBaseAmountText to handleBaseAmountChange, commitBaseAmount to
handleBaseAmountBlur, selectPresetTip to handleTipSelect, setCustomTipText
to handleCustomTipChange, commitCustomTip to handleCustomTipBlur. -/
inductive Op where
  | setBaseAmountText (text : String)
  | commitBaseAmount
  | selectPresetTip (percentage : ℕ)
  | setCustomTipText (text : String)
  | commitCustomTip
deriving DecidableEq, Repr

/-- Interpretation of one operation on the component state. -/
def applyOp (s : PaymentState) : Op → PaymentState
  | .setBaseAmountText t => handleBaseAmountChange s t
  | .commitBaseAmount => handleBaseAmountBlur s
  | .selectPresetTip p => handleTipSelect s p
  | .setCustomTipText t => handleCustomTipChange s t
  | .commitCustomTip => handleCustomTipBlur s

/-- States reachable from the initial state by event handler calls. -/
def Reachable (s : PaymentState) : Prop :=
  ∃ ops : List Op, s = ops.foldl applyOp initState

/-- Number of dots of a string, for the rejection condition of the spec. -/
def countDots (cs : List Char) : ℕ := cs.count '.'

/-- Number of characters after the first dot of a string, for the
rejection condition of the spec. -/
def fracDigitsLen (cs : List Char) : ℕ :=
  ((cs.dropWhile (fun c => c != '.')).drop 1).length

theorem takeWhile_append_left {p : Char → Bool} (l r : List Char)
    (h : ∀ c ∈ l, p c = true) :
    (l ++ r).takeWhile p = l ++ r.takeWhile p := by
  induction l with
  | nil => simp
  | cons a t ih =>
    simp only [List.cons_append, List.takeWhile_cons, h a (by simp)]
    rw [ih (fun c hc => h c (by simp [hc]))]
    simp

theorem dropWhile_append_left {p : Char → Bool} (l r : List Char)
    (h : ∀ c ∈ l, p c = true) :
    (l ++ r).dropWhile p = r.dropWhile p := by
  induction l with
  | nil => simp
  | cons a t ih =>
    simp only [List.cons_append, List.dropWhile_cons, h a (by simp)]
    exact ih (fun c hc => h c (by simp [hc]))

theorem takeWhile_eq_self {p : Char → Bool} (l : List Char)
    (h : ∀ c ∈ l, p c = true) : l.takeWhile p = l := by
  induction l with
  | nil => rfl
  | cons a t ih =>
    simp only [List.takeWhile_cons, h a (by simp)]
    rw [ih (fun c hc => h c (by simp [hc]))]
    simp

theorem natDigitChar_toNat (d : ℕ) : (natDigitChar d).toNat = 48 + d % 10 := by
  have h : d % 10 < 10 := Nat.mod_lt _ (by norm_num)
  obtain ⟨k, hk⟩ : ∃ k, d % 10 = k := ⟨_, rfl⟩
  unfold natDigitChar
  rw [hk] at h ⊢
  interval_cases k <;> decide

theorem natDigitChar_isDigit (d : ℕ) : (natDigitChar d).isDigit = true := by
  have h : d % 10 < 10 := Nat.mod_lt _ (by norm_num)
  obtain ⟨k, hk⟩ : ∃ k, d % 10 = k := ⟨_, rfl⟩
  unfold natDigitChar
  rw [hk] at h ⊢
  interval_cases k <;> decide

theorem digitsVal_append_singleton (l : List Char) (c : Char) :
    digitsVal (l ++ [c]) = 10 * digitsVal l + (c.toNat - 48) := by
  simp [digitsVal, List.foldl_append]

theorem natToRevDigits_zero : natToRevDigits 0 = [] := by
  rw [natToRevDigits]

theorem natToRevDigits_succ (n : ℕ) :
    natToRevDigits (n + 1)
      = natDigitChar ((n + 1) % 10) :: natToRevDigits ((n + 1) / 10) := by
  rw [natToRevDigits]

theorem digitsVal_reverse_natToRevDigits (n : ℕ) :
    digitsVal (natToRevDigits n).reverse = n := by
  induction n using Nat.strong_induction_on with
  | _ n ih =>
    match n with
    | 0 => rw [natToRevDigits_zero]; rfl
    | m + 1 =>
      rw [natToRevDigits_succ, List.reverse_cons, digitsVal_append_singleton,
        ih _ (Nat.div_lt_self (Nat.succ_pos m) (by norm_num)), natDigitChar_toNat]
      omega

theorem natToRevDigits_all_digit (n : ℕ) :
    ∀ c ∈ natToRevDigits n, c.isDigit = true := by
  induction n using Nat.strong_induction_on with
  | _ n ih =>
    match n with
    | 0 => rw [natToRevDigits_zero]; intro c hc; cases hc
    | m + 1 =>
      rw [natToRevDigits_succ]
      intro c hc
      rcases List.mem_cons.mp hc with h | h
      · rw [h]; exact natDigitChar_isDigit _
      · exact ih _ (Nat.div_lt_self (Nat.succ_pos m) (by norm_num)) c h

theorem natToChars_all_digit (n : ℕ) : ∀ c ∈ natToChars n, c.isDigit = true := by
  unfold natToChars
  split
  · intro c hc
    rcases List.mem_singleton.mp hc with rfl
    decide
  · intro c hc
    exact natToRevDigits_all_digit n c (List.mem_reverse.mp hc)

theorem natToChars_ne_nil (n : ℕ) : natToChars n ≠ [] := by
  unfold natToChars
  split
  · simp
  · case _ h =>
    obtain ⟨m, rfl⟩ := Nat.exists_eq_succ_of_ne_zero h
    rw [natToRevDigits_succ]
    simp

theorem digitsVal_natToChars (n : ℕ) : digitsVal (natToChars n) = n := by
  unfold natToChars
  split
  · case _ h => rw [h]; rfl
  · exact digitsVal_reverse_natToRevDigits n

theorem floor_round2 (q : ℚ) : ⌊round2 q * 100 + 1 / 2⌋ = ⌊q * 100 + 1 / 2⌋ := by
  unfold round2
  rw [div_mul_cancel₀ _ (by norm_num : (100 : ℚ) ≠ 0), Int.floor_int_add]
  norm_num

theorem round2_idem (q : ℚ) : round2 (round2 q) = round2 q := by
  show (⌊round2 q * 100 + 1 / 2⌋ : ℚ) / 100 = round2 q
  rw [floor_round2]
  rfl

theorem format2_round2 (q : ℚ) : format2 (round2 q) = format2 q := by
  unfold format2 format2Chars
  rw [floor_round2]

theorem round2_natCast_div (m : ℕ) : round2 ((m : ℚ) / 100) = (m : ℚ) / 100 := by
  unfold round2
  rw [div_mul_cancel₀ _ (by norm_num : (100 : ℚ) ≠ 0)]
  rw [show ((m : ℚ) + 1 / 2) = ((m : ℤ) : ℚ) + 1 / 2 from by push_cast; ring,
    Int.floor_int_add]
  norm_num

theorem round2_one_le {q : ℚ} (h : 1 ≤ q) : 1 ≤ round2 q := by
  unfold round2
  have h2 : (100 : ℤ) ≤ ⌊q * 100 + 1 / 2⌋ := Int.le_floor.mpr (by push_cast; linarith)
  have h3 : (100 : ℚ) ≤ (⌊q * 100 + 1 / 2⌋ : ℚ) := by exact_mod_cast h2
  linarith

theorem floor_nonneg_of_nonneg {q : ℚ} (h : 0 ≤ q) : 0 ≤ ⌊q * 100 + 1 / 2⌋ :=
  Int.le_floor.mpr (by push_cast; linarith)

theorem parseFloatChars_nonneg {cs : List Char} {v : ℚ}
    (h : parseFloatChars cs = some v) : 0 ≤ v := by
  unfold parseFloatChars at h
  split at h
  · cases h
  · rw [Option.some.injEq] at h
    rw [← h]
    positivity

theorem parseFloat_nonneg {s : String} {v : ℚ} (h : parseFloat s = some v) :
    0 ≤ v := parseFloatChars_nonneg h

theorem parseFloat_format2 {q : ℚ} (hq : 0 ≤ q) :
    parseFloat (format2 q) = some (round2 q) := by
  have hfl : 0 ≤ ⌊q * 100 + 1 / 2⌋ := floor_nonneg_of_nonneg hq
  obtain ⟨n, hn⟩ : ∃ n : ℕ, ⌊q * 100 + 1 / 2⌋ = (n : ℤ) :=
    ⟨(⌊q * 100 + 1 / 2⌋).toNat, (Int.toNat_of_nonneg hfl).symm⟩
  show parseFloatChars (format2Chars q) = some (round2 q)
  have hchars : format2Chars q
      = natToChars (n / 100)
        ++ '.' :: natDigitChar (n / 10 % 10) :: [natDigitChar (n % 10)] := by
    unfold format2Chars
    rw [hn, Int.toNat_ofNat]
  have hint : intPartOf (format2Chars q) = natToChars (n / 100) := by
    unfold intPartOf
    rw [hchars, takeWhile_append_left _ _ (natToChars_all_digit _),
      List.takeWhile_cons]
    simp
  have hfrac : fracPartOf (format2Chars q)
      = natDigitChar (n / 10 % 10) :: [natDigitChar (n % 10)] := by
    unfold fracPartOf
    rw [hchars, dropWhile_append_left _ _ (natToChars_all_digit _),
      List.dropWhile_cons]
    simp only [show ('.').isDigit = false from rfl, Bool.false_eq_true,
      if_false, if_pos rfl]
    exact takeWhile_eq_self _ (by
      intro c hc
      rcases List.mem_cons.mp hc with rfl | hc
      · exact natDigitChar_isDigit _
      · rcases List.mem_singleton.mp hc with rfl
        exact natDigitChar_isDigit _)
  unfold parseFloatChars
  rw [hint, hfrac]
  rw [if_neg (by
    intro hcon
    exact natToChars_ne_nil (n / 100) hcon.1)]
  rw [Option.some.injEq]
  have hdv : digitsVal (natDigitChar (n / 10 % 10) :: [natDigitChar (n % 10)])
      = n % 100 := by
    show digitsVal ([] ++ [natDigitChar (n / 10 % 10)] ++ [natDigitChar (n % 10)])
      = n % 100
    rw [digitsVal_append_singleton, digitsVal_append_singleton,
      natDigitChar_toNat, natDigitChar_toNat]
    have : digitsVal [] = 0 := rfl
    rw [this]
    omega
  rw [hdv, digitsVal_natToChars]
  unfold round2
  rw [hn]
  simp only [List.length_cons, List.length_nil]
  have hsplit : 100 * (n / 100) + n % 100 = n := Nat.div_add_mod n 100
  rw [show ((n : ℤ) : ℚ) = ((100 * (n / 100) + n % 100 : ℕ) : ℚ) from by
    rw [hsplit]; push_cast; ring]
  push_cast
  norm_num
  ring

theorem format2_ne_empty (q : ℚ) : format2 q ≠ "" := by
  intro h
  have h2 : format2Chars q = [] := congrArg String.data h
  unfold format2Chars at h2
  exact List.append_ne_nil_of_right_ne_nil _ (by simp) h2

theorem valid_parse_hundredth {s : String} {v : ℚ}
    (hval : validFormat s = true) (h : parseFloat s = some v) :
    ∃ m : ℕ, v = (m : ℚ) / 100 := by
  unfold validFormat validFormatChars at hval
  unfold parseFloat parseFloatChars at h
  split at h
  · cases h
  · rw [Option.some.injEq] at h
    cases hrest : s.data.dropWhile Char.isDigit with
    | nil =>
      have hfrac : fracPartOf s.data = [] := by unfold fracPartOf; rw [hrest]
      refine ⟨100 * digitsVal (intPartOf s.data), ?_⟩
      rw [← h, hfrac, show digitsVal [] = 0 from rfl]
      push_cast
      norm_num
    | cons c t =>
      rw [hrest] at hval
      simp only [Bool.and_eq_true, decide_eq_true_eq] at hval
      obtain ⟨⟨hc, hdig⟩, hlen⟩ := hval
      have hfrac : fracPartOf s.data = t := by
        unfold fracPartOf
        rw [hrest]
        show (if c = '.' then t.takeWhile Char.isDigit else []) = t
        rw [if_pos hc]
        exact takeWhile_eq_self _ (fun c hc => by
          simpa using List.all_eq_true.mp hdig c hc)
      rw [hfrac] at h
      refine ⟨100 * digitsVal (intPartOf s.data)
        + digitsVal t * 10 ^ (2 - t.length), ?_⟩
      rw [← h]
      have h3 : t.length = 0 ∨ t.length = 1 ∨ t.length = 2 := by omega
      rcases h3 with h3 | h3 | h3 <;> rw [h3] <;> push_cast <;> norm_num <;> ring

theorem valid_parse_round2 {s : String} {v : ℚ}
    (hval : validFormat s = true) (h : parseFloat s = some v) : round2 v = v := by
  obtain ⟨m, rfl⟩ := valid_parse_hundredth hval h
  exact round2_natCast_div m

theorem clean_of_valid {cs : List Char} (h : validFormatChars cs = true) :
    cleanChars cs = cs := by
  unfold cleanChars
  rw [List.filter_eq_self]
  intro c hc
  rw [← List.takeWhile_append_dropWhile (p := Char.isDigit) (l := cs)] at hc
  rcases List.mem_append.mp hc with h1 | h2
  · unfold isMoneyChar
    rw [List.mem_takeWhile_imp h1]
    simp
  · unfold validFormatChars at h
    cases hrest : cs.dropWhile Char.isDigit with
    | nil => rw [hrest] at h2; cases h2
    | cons a t =>
      rw [hrest] at h h2
      simp only [Bool.and_eq_true, decide_eq_true_eq] at h
      obtain ⟨⟨ha, hdig⟩, _⟩ := h
      unfold isMoneyChar
      rcases List.mem_cons.mp h2 with rfl | hct
      · rw [ha]; simp
      · rw [List.all_eq_true.mp hdig c hct]; simp

theorem cleanChars_idem (cs : List Char) : cleanChars (cleanChars cs) = cleanChars cs := by
  unfold cleanChars
  rw [List.filter_eq_self]
  intro c hc
  exact List.of_mem_filter hc

theorem cleanStr_of_valid {s : String} (h : validFormat s = true) :
    cleanStr s = s := by
  unfold cleanStr
  rw [clean_of_valid h]

theorem valid_dots_frac {cs : List Char} (h : validFormatChars cs = true) :
    countDots cs ≤ 1 ∧ fracDigitsLen cs ≤ 2 := by
  have hsplit : cs.takeWhile Char.isDigit ++ cs.dropWhile Char.isDigit = cs :=
    List.takeWhile_append_dropWhile Char.isDigit cs
  have hdigits : ∀ c ∈ cs.takeWhile Char.isDigit, c.isDigit = true :=
    fun c hc => List.mem_takeWhile_imp hc
  have hnotdot : ∀ c ∈ cs.takeWhile Char.isDigit, (c != '.') = true := by
    intro c hc
    have := hdigits c hc
    simp only [bne_iff_ne, ne_eq]
    intro heq
    rw [heq] at this
    cases this
  have hcount0 : (cs.takeWhile Char.isDigit).count '.' = 0 := by
    rw [List.count_eq_zero]
    intro hmem
    have := hdigits '.' hmem
    cases this
  unfold validFormatChars at h
  cases hrest : cs.dropWhile Char.isDigit with
  | nil =>
    constructor
    · unfold countDots
      rw [← hsplit, hrest, List.append_nil, hcount0]
      norm_num
    · unfold fracDigitsLen
      rw [← hsplit, hrest, List.append_nil,
        List.dropWhile_eq_nil_iff.mpr (fun c hc => by simpa using hnotdot c hc)]
      simp
  | cons a t =>
    rw [hrest] at h
    simp only [Bool.and_eq_true, decide_eq_true_eq] at h
    obtain ⟨⟨ha, hdig⟩, hlen⟩ := h
    have ha' : a = '.' := by simpa using ha
    constructor
    · unfold countDots
      rw [← hsplit, hrest, List.count_append, hcount0, ha', List.count_cons]
      have ht0 : t.count '.' = 0 := by
        rw [List.count_eq_zero]
        intro hmem
        have := List.all_eq_true.mp hdig '.' hmem
        simp at this
      simp [ht0]
    · unfold fracDigitsLen
      rw [← hsplit, hrest, dropWhile_append_left _ _ hnotdot, ha',
        List.dropWhile_cons]
      simp only [bne_self_eq_false, Bool.false_eq_true, if_false]
      simpa using hlen

theorem parseFloat_empty : parseFloat "" = none := by with_unfolding_all decide

theorem parseFloat_one : parseFloat "1.00" = some 1 := by with_unfolding_all decide

theorem format2_one : format2 1 = "1.00" := by with_unfolding_all decide

/-- Inductive invariant of the component state: a nonempty custom tip
parses to a value of at least one, custom tip and preset selection are
mutually exclusive, and the numeric base amount agrees with the base
amount text whenever the text parses, and is zero when the text is
empty. -/
def Inv (s : PaymentState) : Prop :=
  (s.customTip = "" ∨ ∃ v, parseFloat s.customTip = some v ∧ 1 ≤ v)
  ∧ (s.customTip = "" ∨ s.selectedTip = 0)
  ∧ (∀ v, parseFloat s.baseAmountInput = some v → s.baseAmount = v)
  ∧ (s.baseAmountInput = "" → s.baseAmount = 0)

theorem inv_initState : Inv initState := by
  refine ⟨Or.inl rfl, Or.inl rfl, ?_, ?_⟩
  · intro v hv
    have h : parseFloat "200.00" = some 200 := by with_unfolding_all decide
    have : initState.baseAmountInput = "200.00" := rfl
    rw [this, h] at hv
    rw [Option.some.injEq] at hv
    exact hv
  · intro h
    exact absurd h (by decide)

theorem inv_handleTipSelect (s : PaymentState) (p : ℕ) (h : Inv s) :
    Inv (handleTipSelect s p) := by
  obtain ⟨_, _, h3, h4⟩ := h
  exact ⟨Or.inl rfl, Or.inl rfl, h3, h4⟩

theorem inv_handleCustomTipChange (s : PaymentState) (t : String) (h : Inv s) :
    Inv (handleCustomTipChange s t) := by
  obtain ⟨h1, h2, h3, h4⟩ := h
  simp only [handleCustomTipChange]
  split
  · split
    · case _ pv heq =>
      split
      · case _ hle => exact ⟨Or.inr ⟨pv, heq, hle⟩, Or.inr rfl, h3, h4⟩
      · split
        · exact ⟨Or.inl rfl, Or.inr rfl, h3, h4⟩
        · exact ⟨h1, h2, h3, h4⟩
    · split
      · exact ⟨Or.inl rfl, Or.inr rfl, h3, h4⟩
      · exact ⟨h1, h2, h3, h4⟩
  · exact ⟨h1, h2, h3, h4⟩

theorem inv_handleCustomTipBlur (s : PaymentState) (h : Inv s) :
    Inv (handleCustomTipBlur s) := by
  obtain ⟨h1, h2, h3, h4⟩ := h
  simp only [handleCustomTipBlur]
  split
  · case _ hemp => exact ⟨Or.inl hemp, h2.imp_left (fun _ => hemp), h3, h4⟩
  · case _ hne =>
    rcases h1 with h1 | ⟨v, hv, hv1⟩
    · exact absurd h1 hne
    split
    · case _ pv heq =>
      rw [hv, Option.some.injEq] at heq
      subst heq
      split
      · case _ hlt => exact absurd hv1 (not_le.mpr hlt)
      · have h0 : 0 ≤ v := parseFloat_nonneg hv
        refine ⟨Or.inr ⟨round2 v, parseFloat_format2 h0, round2_one_le hv1⟩,
          ?_, h3, h4⟩
        rcases h2 with h2 | h2
        · exact absurd h2 hne
        · exact Or.inr h2
    · case _ heq => rw [hv] at heq; cases heq

theorem inv_handleBaseAmountChange (s : PaymentState) (t : String) (h : Inv s) :
    Inv (handleBaseAmountChange s t) := by
  obtain ⟨h1, h2, h3, h4⟩ := h
  simp only [handleBaseAmountChange]
  split
  · split
    · rename_i pv heq
      refine ⟨h1, h2, ?_, ?_⟩
      · intro v hv
        have hv2 : parseFloat (cleanStr t) = some v := hv
        rw [heq, Option.some.injEq] at hv2
        exact hv2
      · intro hv
        have hv2 : cleanStr t = "" := hv
        rw [hv2, parseFloat_empty] at heq
        cases heq
    · rename_i heq
      split
      · rename_i hemp
        refine ⟨h1, h2, ?_, fun _ => rfl⟩
        intro v hv
        have hv2 : parseFloat (cleanStr t) = some v := hv
        rw [hemp, parseFloat_empty] at hv2
        cases hv2
      · rename_i hemp
        refine ⟨h1, h2, ?_, ?_⟩
        · intro v hv
          have hv2 : parseFloat (cleanStr t) = some v := hv
          rw [heq] at hv2
          cases hv2
        · intro hv
          exact absurd (show cleanStr t = "" from hv) hemp
  · exact ⟨h1, h2, h3, h4⟩

theorem inv_handleBaseAmountBlur (s : PaymentState) (h : Inv s) :
    Inv (handleBaseAmountBlur s) := by
  obtain ⟨h1, h2, h3, h4⟩ := h
  simp only [handleBaseAmountBlur]
  split
  · refine ⟨h1, h2, ?_, ?_⟩
    · intro v hv
      have hv2 : parseFloat "1.00" = some v := hv
      rw [parseFloat_one, Option.some.injEq] at hv2
      exact hv2
    · intro hv
      exact absurd (show ("1.00" : String) = "" from hv) (by decide)
  · rename_i pv heq
    split
    · refine ⟨h1, h2, ?_, ?_⟩
      · intro v hv
        have hv2 : parseFloat "1.00" = some v := hv
        rw [parseFloat_one, Option.some.injEq] at hv2
        exact hv2
      · intro hv
        exact absurd (show ("1.00" : String) = "" from hv) (by decide)
    · have h0 : 0 ≤ pv := parseFloat_nonneg heq
      have hrt : parseFloat (format2 pv) = some (round2 pv) := parseFloat_format2 h0
      refine ⟨h1, h2, ?_, ?_⟩
      · intro v hv
        have hv2 : parseFloat (format2 pv) = some v := hv
        rw [hrt, Option.some.injEq] at hv2
        show (parseFloat (format2 pv)).getD 0 = v
        rw [hrt, ← hv2]
        rfl
      · intro hv
        exact absurd (show format2 pv = "" from hv) (format2_ne_empty pv)

theorem inv_applyOp (s : PaymentState) (op : Op) (h : Inv s) :
    Inv (applyOp s op) := by
  cases op with
  | setBaseAmountText t => exact inv_handleBaseAmountChange s t h
  | commitBaseAmount => exact inv_handleBaseAmountBlur s h
  | selectPresetTip p => exact inv_handleTipSelect s p h
  | setCustomTipText t => exact inv_handleCustomTipChange s t h
  | commitCustomTip => exact inv_handleCustomTipBlur s h

theorem inv_foldl (ops : List Op) (s : PaymentState) (h : Inv s) :
    Inv (ops.foldl applyOp s) := by
  induction ops generalizing s with
  | nil => exact h
  | cons op rest ih => exact ih _ (inv_applyOp s op h)

theorem reachable_inv {s : PaymentState} (h : Reachable s) : Inv s := by
  obtain ⟨ops, rfl⟩ := h
  exact inv_foldl ops initState inv_initState

/-- C1: for every input string accepted by the base amount format filter
that parses to a value v, setBaseAmountText followed by commitBaseAmount
yields a numeric base amount equal to max 1 (round2 v), with the editable
text equal to that value formatted to two decimal places; and after any
commitBaseAmount the numeric base amount is at least 1. -/
theorem C1_commit_normalizes (s0 : PaymentState) (s : String) (v : ℚ)
    (hval : validFormat s = true) (hp : parseFloat s = some v) :
    ((handleBaseAmountBlur (handleBaseAmountChange s0 s)).baseAmount
        = max 1 (round2 v)
      ∧ (handleBaseAmountBlur (handleBaseAmountChange s0 s)).baseAmountInput
        = format2 (max 1 (round2 v)))
    ∧ ∀ t : PaymentState, 1 ≤ (handleBaseAmountBlur t).baseAmount := by
  have hclean : cleanStr s = s := cleanStr_of_valid hval
  have hround : round2 v = v := valid_parse_round2 hval hp
  have h0 : 0 ≤ v := parseFloat_nonneg hp
  have hchange : handleBaseAmountChange s0 s
      = { s0 with baseAmountInput := s, baseAmount := v } := by
    simp only [handleBaseAmountChange]
    rw [hclean, if_pos (Or.inr hval)]
    simp only [hp]
  constructor
  · by_cases hlt : v < 1
    · have hblur : handleBaseAmountBlur { s0 with baseAmountInput := s, baseAmount := v }
          = { s0 with baseAmountInput := "1.00", baseAmount := 1 } := by
        simp only [handleBaseAmountBlur, hp]
        rw [if_pos hlt]
      rw [hchange, hblur, hround, max_eq_left (le_of_lt hlt), format2_one]
      exact ⟨rfl, rfl⟩
    · have hle : (1 : ℚ) ≤ v := le_of_not_lt hlt
      have hrt : parseFloat (format2 v) = some (round2 v) := parseFloat_format2 h0
      have hblur : handleBaseAmountBlur { s0 with baseAmountInput := s, baseAmount := v }
          = { s0 with baseAmountInput := format2 v, baseAmount := round2 v } := by
        simp only [handleBaseAmountBlur, hp]
        rw [if_neg hlt, hrt]
        rfl
      rw [hchange, hblur, hround, max_eq_right hle]
      exact ⟨rfl, rfl⟩
  · intro t
    simp only [handleBaseAmountBlur]
    split
    · exact le_refl 1
    · rename_i pv heq
      split
      · exact le_refl 1
      · rename_i hlt
        have h0' : 0 ≤ pv := parseFloat_nonneg heq
        show (1 : ℚ) ≤ (parseFloat (format2 pv)).getD 0
        rw [parseFloat_format2 h0']
        exact round2_one_le (le_of_not_lt hlt)

/-- C1 witness at the concrete input 0.50, which is clamped to 1.00. -/
theorem C1_commit_normalizes_witness :
    ((handleBaseAmountBlur (handleBaseAmountChange initState "0.50")).baseAmount
        = max 1 (round2 (1 / 2))
      ∧ (handleBaseAmountBlur (handleBaseAmountChange initState "0.50")).baseAmountInput
        = format2 (max 1 (round2 (1 / 2))))
    ∧ 1 ≤ (handleBaseAmountBlur initState).baseAmount :=
  ⟨(C1_commit_normalizes initState "0.50" (1 / 2) (by decide)
      (by with_unfolding_all decide)).1,
   (C1_commit_normalizes initState "0.50" (1 / 2) (by decide)
      (by with_unfolding_all decide)).2 initState⟩

/-- C2 counterexample: entering 0.50 as custom tip text and committing does
not clamp anything to 1.00, because a value below one never becomes the
active custom tip; afterwards no custom tip is active and the display text
is cleared. -/
theorem C2_no_clamp_cex :
    parseFloat (cleanStr "0.50") = some (1 / 2) ∧ (1 / 2 : ℚ) < 1
    ∧ (handleCustomTipBlur (handleCustomTipChange initState "0.50")).customTip ≠ "1.00"
    ∧ (handleCustomTipBlur (handleCustomTipChange initState "0.50")).customTip = ""
    ∧ (handleCustomTipBlur (handleCustomTipChange initState "0.50")).customTipDisplay = "" :=
  ⟨by with_unfolding_all decide, by norm_num, by with_unfolding_all decide,
   by with_unfolding_all decide, by with_unfolding_all decide⟩

/-- C2 amended: commitCustomTip clamps to 1.00 exactly when a custom tip is
already active and parses below one; since entering text that parses below
one never activates a custom tip, entering 0.50 from a state with no active
custom tip and committing leaves no custom tip and clears the display. -/
theorem C2_clamp_amended (s : PaymentState) :
    (∀ v : ℚ, s.customTip ≠ "" → parseFloat s.customTip = some v → v < 1 →
      handleCustomTipBlur s
        = { s with customTip := "1.00", customTipDisplay := "$1.00" })
    ∧ (s.customTip = "" →
        (handleCustomTipBlur (handleCustomTipChange s "0.50")).customTip = ""
        ∧ (handleCustomTipBlur (handleCustomTipChange s "0.50")).customTipDisplay = "") := by
  constructor
  · intro v hne hp hlt
    unfold handleCustomTipBlur
    rw [if_neg hne]
    simp only [hp]
    rw [if_pos hlt]
  · intro hemp
    have hc : cleanStr "0.50" = "0.50" := by decide
    have hv : validFormat "0.50" = true := by decide
    have hp : parseFloat "0.50" = some (1 / 2) := by with_unfolding_all decide
    have hchg : handleCustomTipChange s "0.50"
        = { s with customTipDisplay := "$0.50" } := by
      simp only [handleCustomTipChange]
      rw [hc, if_pos (Or.inr hv)]
      simp only [hp]
      rw [if_neg (by norm_num : ¬ (1 : ℚ) ≤ 1 / 2),
        if_neg (by decide : ¬ ("0.50" : String) = "")]
      rfl
    rw [hchg]
    unfold handleCustomTipBlur
    rw [if_pos (show ({ s with customTipDisplay := "$0.50" } :
      PaymentState).customTip = "" from hemp)]
    exact ⟨hemp, rfl⟩

/-- C2 witness: the clamp branch fires on a state with an active custom tip
of 0.50, and the committed state after entering 0.50 from the initial state
has no custom tip. -/
theorem C2_clamp_amended_witness :
    handleCustomTipBlur
        { baseAmount := 200, baseAmountInput := "200.00", selectedTip := 0,
          customTip := "0.50", customTipDisplay := "$0.50" }
      = { baseAmount := 200, baseAmountInput := "200.00", selectedTip := 0,
          customTip := "1.00", customTipDisplay := "$1.00" }
    ∧ (handleCustomTipBlur (handleCustomTipChange initState "0.50")).customTip = "" :=
  ⟨(C2_clamp_amended _).1 (1 / 2) (by decide) (by with_unfolding_all decide)
      (by norm_num),
   ((C2_clamp_amended initState).2 rfl).1⟩

/-- C3 counterexample: on the reachable state with preset 15 selected,
entering custom tip text whose cleaned form is empty resets the preset
selection to zero, so the preset selection field is modified. -/
theorem C3_preset_reset_cex :
    (handleTipSelect initState 15).selectedTip = 15
    ∧ cleanStr "" = ""
    ∧ (handleCustomTipChange (handleTipSelect initState 15) "").selectedTip = 0 :=
  ⟨by decide, by decide, by with_unfolding_all decide⟩

/-- C3 amended: entering custom tip text whose cleaned form is empty clears
the active custom tip and its display text and also resets the preset
selection to zero; the base amount fields are unchanged. -/
theorem C3_clear_amended (s : PaymentState) (t : String) (h : cleanStr t = "") :
    handleCustomTipChange s t
      = { s with customTip := "", customTipDisplay := "", selectedTip := 0 } := by
  simp only [handleCustomTipChange]
  rw [h, if_pos (Or.inl rfl)]
  simp only [parseFloat_empty]
  simp

/-- C3 witness at the empty input string on the state with preset 15. -/
theorem C3_clear_amended_witness :
    handleCustomTipChange (handleTipSelect initState 15) ""
      = { handleTipSelect initState 15 with
          customTip := "", customTipDisplay := "", selectedTip := 0 } :=
  C3_clear_amended (handleTipSelect initState 15) "" (by decide)

/-- C4: in every reachable state at most one of the preset selection and
the custom tip is active; selecting a preset clears the custom value, and
entering text that is format valid and parses to at least one activates the
custom tip and clears the preset selection. -/
theorem C4_mutual_exclusion (s : PaymentState) (h : Reachable s) :
    (s.customTip = "" ∨ s.selectedTip = 0)
    ∧ (∀ p : ℕ, (handleTipSelect s p).customTip = ""
        ∧ (handleTipSelect s p).customTipDisplay = "")
    ∧ (∀ t v, validFormat (cleanStr t) = true → parseFloat (cleanStr t) = some v →
        1 ≤ v → (handleCustomTipChange s t).selectedTip = 0
          ∧ (handleCustomTipChange s t).customTip = cleanStr t) := by
  refine ⟨(reachable_inv h).2.1, fun p => ⟨rfl, rfl⟩, ?_⟩
  intro t v hval hp hle
  simp only [handleCustomTipChange]
  rw [if_pos (Or.inr hval)]
  simp only [hp]
  rw [if_pos hle]
  exact ⟨rfl, rfl⟩

/-- C4 witness at the initial state, preset 10 and custom text 5.00. -/
theorem C4_mutual_exclusion_witness :
    (initState.customTip = "" ∨ initState.selectedTip = 0)
    ∧ ((handleTipSelect initState 10).customTip = ""
        ∧ (handleTipSelect initState 10).customTipDisplay = "")
    ∧ ((handleCustomTipChange initState "5.00").selectedTip = 0
        ∧ (handleCustomTipChange initState "5.00").customTip = cleanStr "5.00") :=
  ⟨(C4_mutual_exclusion initState ⟨[], rfl⟩).1,
   (C4_mutual_exclusion initState ⟨[], rfl⟩).2.1 10,
   (C4_mutual_exclusion initState ⟨[], rfl⟩).2.2 "5.00" 5 (by decide)
     (by with_unfolding_all decide) (by norm_num)⟩

/-- C5: the derived amounts are the numeric base amount as subtotal, the
tip from the active selection with the custom tip taking precedence, and
their sum as total; an active custom tip of 5.00 gives tip 5 whatever the
base amount is. -/
theorem C5_derivedAmounts (s : PaymentState) :
    (derivedAmounts s).1 = s.baseAmount
    ∧ (derivedAmounts s).2.2 = (derivedAmounts s).1 + (derivedAmounts s).2.1
    ∧ (s.customTip = "" →
        (derivedAmounts s).2.1 = s.baseAmount * s.selectedTip / 100)
    ∧ (∀ v, s.customTip ≠ "" → parseFloat s.customTip = some v →
        (derivedAmounts s).2.1 = v)
    ∧ (s.customTip = "5.00" → (derivedAmounts s).2.1 = 5) := by
  refine ⟨rfl, ?_, ?_, ?_, ?_⟩
  · show getTotalAmount s = s.baseAmount + derivedTip s
    by_cases hc : s.customTip = "" <;>
      simp [getTotalAmount, derivedTip, calculateTipAmount, hc]
  · intro hemp
    show derivedTip s = s.baseAmount * s.selectedTip / 100
    unfold derivedTip calculateTipAmount
    rw [if_pos hemp]
  · intro v hne hp
    show derivedTip s = v
    unfold derivedTip
    rw [if_neg hne, hp]
    rfl
  · intro h5
    have hp : parseFloat "5.00" = some 5 := by with_unfolding_all decide
    show derivedTip s = 5
    unfold derivedTip
    rw [if_neg (by rw [h5]; decide), h5, hp]
    rfl

/-- C5 witness on a state with base 77 and active custom tip 5.00. -/
theorem C5_derivedAmounts_witness :
    (derivedAmounts
      { baseAmount := 77, baseAmountInput := "77.00", selectedTip := 0,
        customTip := "5.00", customTipDisplay := "$5.00" }).2.1 = 5 :=
  (C5_derivedAmounts _).2.2.2.2 rfl

/-- C6 counterexample: from the reachable no-custom state in which 15 is
already selected, pressing 15 twice ends with 15 selected again and a
nonzero tip, not with no tip. -/
theorem C6_double_toggle_cex :
    (handleTipSelect initState 15).customTip = ""
    ∧ (handleTipSelect (handleTipSelect (handleTipSelect initState 15) 15)
        15).selectedTip = 15
    ∧ derivedTip (handleTipSelect (handleTipSelect (handleTipSelect initState 15) 15)
        15) ≠ 0 :=
  ⟨by decide, by decide, by with_unfolding_all decide⟩

/-- C6 amended: handleTipSelect deselects an already selected percentage,
replaces a different one, and always clears the custom tip and its display;
pressing 15 twice from a no-custom state in which 15 is not already
selected yields no tip. -/
theorem C6_toggle (s : PaymentState) (p : ℕ) (hmem : p ∈ tipPercentages) :
    (s.selectedTip = p → (handleTipSelect s p).selectedTip = 0)
    ∧ (s.selectedTip ≠ p → (handleTipSelect s p).selectedTip = p)
    ∧ (handleTipSelect s p).customTip = ""
    ∧ (handleTipSelect s p).customTipDisplay = ""
    ∧ (s.customTip = "" → s.selectedTip ≠ 15 →
        (handleTipSelect (handleTipSelect s 15) 15).selectedTip = 0
        ∧ derivedTip (handleTipSelect (handleTipSelect s 15) 15) = 0) := by
  refine ⟨?_, ?_, rfl, rfl, ?_⟩
  · intro h
    show (if s.selectedTip = p then 0 else p) = 0
    rw [if_pos h]
  · intro h
    show (if s.selectedTip = p then 0 else p) = p
    rw [if_neg h]
  · intro hct hne
    have h1 : (handleTipSelect s 15).selectedTip = 15 := by
      show (if s.selectedTip = 15 then 0 else 15) = 15
      rw [if_neg hne]
    have h2 : (handleTipSelect (handleTipSelect s 15) 15).selectedTip = 0 := by
      show (if (handleTipSelect s 15).selectedTip = 15 then 0 else 15) = 0
      rw [if_pos h1]
    refine ⟨h2, ?_⟩
    unfold derivedTip calculateTipAmount
    have hc2 : (handleTipSelect (handleTipSelect s 15) 15).customTip = "" := rfl
    rw [if_pos hc2, h2]
    simp

/-- C6 witness at the initial state with percentage 15. -/
theorem C6_toggle_witness :
    ((handleTipSelect initState 15).selectedTip = 15)
    ∧ ((handleTipSelect (handleTipSelect initState 15) 15).selectedTip = 0
        ∧ derivedTip (handleTipSelect (handleTipSelect initState 15) 15) = 0) :=
  ⟨(C6_toggle initState 15 (by decide)).2.1 (by decide),
   (C6_toggle initState 15 (by decide)).2.2.2.2 rfl (by decide)⟩

/-- C7 counterexample: the reachable state obtained by typing 0.50 and then
a bare dot has nonempty base text that does not parse at all, yet
isValidPayment is false, contradicting that the predicate is true whenever
the text is neither empty nor parses below one. -/
theorem C7_payable_cex :
    Reachable (handleBaseAmountChange (handleBaseAmountChange initState "0.50") ".")
    ∧ (handleBaseAmountChange (handleBaseAmountChange initState "0.50")
        ".").baseAmountInput ≠ ""
    ∧ parseFloat (handleBaseAmountChange (handleBaseAmountChange initState "0.50")
        ".").baseAmountInput = none
    ∧ isValidPayment (handleBaseAmountChange (handleBaseAmountChange initState "0.50")
        ".") = false :=
  ⟨⟨[Op.setBaseAmountText "0.50", Op.setBaseAmountText "."], rfl⟩,
   by with_unfolding_all decide, by with_unfolding_all decide,
   by with_unfolding_all decide⟩

/-- C7 amended: isValidPayment is true exactly when the numeric base amount
is at least one; in every reachable state it is false when the base text is
empty, and whenever the base text parses it is true exactly when the parsed
value is at least one.  Nonempty unparseable text (a bare dot) instead
reflects the previously stored numeric amount. -/
theorem C7_payable (s : PaymentState) (h : Reachable s) :
    (isValidPayment s = true ↔ 1 ≤ s.baseAmount)
    ∧ (s.baseAmountInput = "" → isValidPayment s = false)
    ∧ ∀ v, parseFloat s.baseAmountInput = some v →
        (isValidPayment s = true ↔ 1 ≤ v) := by
  obtain ⟨_, _, h3, h4⟩ := reachable_inv h
  refine ⟨by simp [isValidPayment], ?_, ?_⟩
  · intro hemp
    have hb : s.baseAmount = 0 := h4 hemp
    simp [isValidPayment, hb]
  · intro v hv
    have hb : s.baseAmount = v := h3 v hv
    simp [isValidPayment, hb]

/-- C7 witness at the initial state, whose text 200.00 parses to 200. -/
theorem C7_payable_witness :
    (isValidPayment initState = true ↔ 1 ≤ initState.baseAmount)
    ∧ (isValidPayment initState = true ↔ (1 : ℚ) ≤ 200) :=
  ⟨(C7_payable initState ⟨[], rfl⟩).1,
   (C7_payable initState ⟨[], rfl⟩).2.2 200 (by with_unfolding_all decide)⟩

/-- C8: commitBaseAmount is idempotent on every state. -/
theorem C8_commit_idempotent (s : PaymentState) :
    handleBaseAmountBlur (handleBaseAmountBlur s) = handleBaseAmountBlur s := by
  cases hp : parseFloat s.baseAmountInput with
  | none =>
    have h1 : handleBaseAmountBlur s
        = { s with baseAmountInput := "1.00", baseAmount := 1 } := by
      simp only [handleBaseAmountBlur, hp]
    rw [h1]
    simp only [handleBaseAmountBlur, parseFloat_one]
    rw [if_neg (by norm_num : ¬ (1 : ℚ) < 1), format2_one, parseFloat_one]
    rfl
  | some pv =>
    by_cases hlt : pv < 1
    · have h1 : handleBaseAmountBlur s
          = { s with baseAmountInput := "1.00", baseAmount := 1 } := by
        simp only [handleBaseAmountBlur, hp]
        rw [if_pos hlt]
      rw [h1]
      simp only [handleBaseAmountBlur, parseFloat_one]
      rw [if_neg (by norm_num : ¬ (1 : ℚ) < 1), format2_one, parseFloat_one]
      rfl
    · have h0 : 0 ≤ pv := parseFloat_nonneg hp
      have hrt : parseFloat (format2 pv) = some (round2 pv) := parseFloat_format2 h0
      have hle : (1 : ℚ) ≤ pv := le_of_not_lt hlt
      have h1 : handleBaseAmountBlur s
          = { s with baseAmountInput := format2 pv, baseAmount := round2 pv } := by
        simp only [handleBaseAmountBlur, hp]
        rw [if_neg hlt, hrt]
        rfl
      rw [h1]
      simp only [handleBaseAmountBlur, hrt]
      rw [if_neg (not_lt.mpr (round2_one_le hle)), format2_round2, hrt]
      rfl

/-- C9: setBaseAmountText depends only on the cleaned text; it is a no-op
when the cleaned text has more than one dot or more than two characters
after the first dot; when the cleaned text passes the format test the
editable text becomes the cleaned text.  Every operation of the component
is a total function, so no error is ever raised. -/
theorem C9_reject_noop (s : PaymentState) (t : String) :
    (handleBaseAmountChange s t = handleBaseAmountChange s (cleanStr t))
    ∧ (1 < countDots (cleanChars t.data) ∨ 2 < fracDigitsLen (cleanChars t.data) →
        handleBaseAmountChange s t = s)
    ∧ (validFormat (cleanStr t) = true →
        (handleBaseAmountChange s t).baseAmountInput = cleanStr t) := by
  have hidem : cleanStr (cleanStr t) = cleanStr t := by
    unfold cleanStr
    rw [show (String.mk (cleanChars t.data)).data = cleanChars t.data from rfl,
      cleanChars_idem]
  refine ⟨?_, ?_, ?_⟩
  · simp only [handleBaseAmountChange, hidem]
  · intro hbad
    have hnv : ¬ (cleanStr t = "" ∨ validFormat (cleanStr t) = true) := by
      rintro (hemp | hval)
      · have hnil : cleanChars t.data = [] := congrArg String.data hemp
        rw [hnil] at hbad
        unfold countDots fracDigitsLen at hbad
        simp at hbad
      · have hok := valid_dots_frac
          (show validFormatChars (cleanChars t.data) = true from hval)
        omega
    simp only [handleBaseAmountChange]
    rw [if_neg hnv]
  · intro hval
    simp only [handleBaseAmountChange]
    rw [if_pos (Or.inr hval)]
    split
    · rfl
    · split <;> rfl

/-- C9 witness: the input 1.2.3 is rejected as a no-op, and the input 7.50
is accepted and stored. -/
theorem C9_reject_noop_witness :
    handleBaseAmountChange initState "1.2.3" = initState
    ∧ (handleBaseAmountChange initState "7.50").baseAmountInput = cleanStr "7.50" :=
  ⟨(C9_reject_noop initState "1.2.3").2.1 (Or.inl (by decide)),
   (C9_reject_noop initState "7.50").2.2 (by decide)⟩

/-- C10: in every reachable state the custom tip is empty or parses to a
value of at least one, so the clamp branch of commitCustomTip never fires:
commitCustomTip either clears the display text or reformats the active
custom tip to two decimal places. -/
theorem C10_custom_invariant (s : PaymentState) (h : Reachable s) :
    (s.customTip = "" ∨ ∃ v, parseFloat s.customTip = some v ∧ 1 ≤ v)
    ∧ (∀ v, s.customTip ≠ "" → parseFloat s.customTip = some v → ¬ v < 1)
    ∧ (s.customTip = "" → handleCustomTipBlur s = { s with customTipDisplay := "" })
    ∧ (∀ v, s.customTip ≠ "" → parseFloat s.customTip = some v →
        handleCustomTipBlur s
          = { s with customTip := format2 v, customTipDisplay := "$" ++ format2 v }) := by
  obtain ⟨h1, _, _, _⟩ := reachable_inv h
  have key : ∀ v, s.customTip ≠ "" → parseFloat s.customTip = some v → 1 ≤ v := by
    intro v hne hp
    rcases h1 with h1 | ⟨w, hw, hw1⟩
    · exact absurd h1 hne
    · rw [hw, Option.some.injEq] at hp
      rw [← hp]
      exact hw1
  refine ⟨h1, fun v hne hp => not_lt.mpr (key v hne hp), ?_, ?_⟩
  · intro hemp
    unfold handleCustomTipBlur
    rw [if_pos hemp]
  · intro v hne hp
    unfold handleCustomTipBlur
    rw [if_neg hne]
    simp only [hp]
    rw [if_neg (not_lt.mpr (key v hne hp))]

/-- C10 witness on the initial state and on the reachable state with an
active custom tip of 5.00. -/
theorem C10_custom_invariant_witness :
    (handleCustomTipBlur initState = { initState with customTipDisplay := "" })
    ∧ ¬ (5 : ℚ) < 1 :=
  ⟨(C10_custom_invariant initState ⟨[], rfl⟩).2.2.1 rfl,
   (C10_custom_invariant (handleCustomTipChange initState "5.00")
      ⟨[Op.setCustomTipText "5.00"], rfl⟩).2.1 5
     (by with_unfolding_all decide) (by with_unfolding_all decide)⟩

end PayMe
